import Mathlib

/-
Verification of the caddy-ip-list module (file `caddyfile.go`, cache-enabled
revision): the fetch/retry engine, the line parser, the aggregator, the cache
store (path derivation, load, save) and the provision/refresh lifecycle.

Go strings are modelled as lists of characters; machine integers as Nat/Int;
the filesystem, the HTTP transport and the clock are passed explicitly as an
environment.  Library helpers from outside the repository (the Go standard
library and the caddy framework) are modelled from their documented behaviour
and marked as such in their doc comments; everything else is translated
directly from the repository source.
-/

namespace CaddyIpList

/-- Go strings, modelled as lists of characters. -/
abbrev Str := List Char

/-- Model of the white-space test used by the Go standard library helper
strings.TrimSpace, restricted to the ASCII white-space characters. -/
def isSpaceGo (c : Char) : Bool :=
  c = ' ' || c = '\t' || c = '\n' || c = '\r' || c = '\x0b' || c = '\x0c'

/-- Model of strings.TrimSpace: drop white space from both ends. -/
def trimGo (s : Str) : Str :=
  ((s.dropWhile isSpaceGo).reverse.dropWhile isSpaceGo).reverse

/-- Split a list at every occurrence of the separator character (the
separator-handling core shared by the models of strings.Split and of the
line scanner). -/
def splitCh (c : Char) : Str → List Str
  | [] => [[]]
  | x :: xs =>
    if x = c then [] :: splitCh c xs
    else
      match splitCh c xs with
      | s :: rest => (x :: s) :: rest
      | [] => [[x]]

/-- Drop a single trailing carriage return, as the Go line scanner does
(bufio.ScanLines calls dropCR on every token). -/
def dropCR (s : Str) : Str :=
  if s.getLast? = some '\r' then s.dropLast else s

/-- Drop the final token when it is empty: a body ending in a newline yields
no empty final line from the scanner. -/
def dropLastEmpty : List Str → List Str
  | [] => []
  | [x] => if x = [] then [] else [x]
  | x :: y :: xs => x :: dropLastEmpty (y :: xs)

/-- Model of the token stream produced by bufio.Scanner with ScanLines:
split the body at newlines, drop the empty token after a trailing newline,
and strip one trailing carriage return from every line. -/
def toLines (s : Str) : List Str :=
  (dropLastEmpty (splitCh '\n' s)).map dropCR

/-- The decimal digit character for a value below ten. -/
def digChar (n : Nat) : Char := Char.ofNat (48 + n)

/-- Accumulator loop for decimal rendering of a natural number; the first
argument is fuel bounding the digit count, so the recursion is structural
and the definition evaluates by kernel reduction. -/
def natDecAux : Nat → Nat → Str → Str
  | 0, _, acc => acc
  | fuel + 1, n, acc =>
    let acc' := digChar (n % 10) :: acc
    if n < 10 then acc' else natDecAux fuel (n / 10) acc'

/-- Decimal rendering of a natural number (the digits of %d). -/
def natDec (n : Nat) : Str := natDecAux (n + 1) n []

/-- Decimal rendering of an integer (fmt's %d verb). -/
def intDec (n : Int) : Str :=
  if n < 0 then '-' :: natDec (-n).toNat else natDec n.toNat

/-- True when the character is an ASCII decimal digit. -/
def isDigitCh (c : Char) : Bool := '0' ≤ c && c ≤ '9'

/-- Numeric value of a digit string. -/
def digitsVal (s : Str) : Nat :=
  s.foldl (fun acc c => acc * 10 + (c.toNat - 48)) 0

/-- Modelled from the Go standard library (net/netip, parseIPv4 field rule):
a dotted-quad field is one to three decimal digits, has no leading zero
unless it is exactly "0", and its value is at most 255. -/
def parseOctet (f : Str) : Option Nat :=
  if f = [] then none
  else if 3 < f.length then none
  else if ¬ f.all isDigitCh then none
  else if 1 < f.length ∧ f.head? = some '0' then none
  else
    let v := digitsVal f
    if 255 < v then none else some v

/-- Modelled from the Go standard library (net/netip.ParseAddr, IPv4 form):
exactly four dot-separated octet fields, combined big-endian into the 32-bit
address value.  The development models the IPv4 fragment of the address
space; inputs outside it fail to parse. -/
def parseAddr4 (s : Str) : Option Nat :=
  match splitCh '.' s with
  | [f0, f1, f2, f3] =>
    match parseOctet f0, parseOctet f1, parseOctet f2, parseOctet f3 with
    | some a, some b, some c, some d =>
      some (a * 16777216 + b * 65536 + c * 256 + d)
    | _, _, _, _ => none
  | _ => none

/-- Modelled from the Go standard library (net/netip.ParsePrefix bits rule):
the text after the slash must be a nonempty digit run without a leading
zero (unless exactly "0"); the range check against the address bit length
is performed by the caller. -/
def parseBitsNum (s : Str) : Option Nat :=
  if s = [] then none
  else if ¬ s.all isDigitCh then none
  else if 1 < s.length ∧ s.head? = some '0' then none
  else some (digitsVal s)

/-- A parsed network range: a 32-bit address value and a mask bit count.
Models the Go netip range value produced by validated parsing. -/
structure Pfx where
  addr : Nat
  bits : Nat
deriving DecidableEq, Repr

/-- The representable range values: address below two to the thirty-second
power and at most thirty-two mask bits. -/
def PfxValid (p : Pfx) : Prop := p.addr < 4294967296 ∧ p.bits ≤ 32

instance (p : Pfx) : Decidable (PfxValid p) := by
  unfold PfxValid; infer_instance

/-- Split at the last slash, as net/netip.ParsePrefix does with
LastIndexByte: returns the text before and after that slash. -/
def splitLastSlash (s : Str) : Option (Str × Str) :=
  let r := s.reverse
  let bitsRev := r.takeWhile (· ≠ '/')
  match r.dropWhile (· ≠ '/') with
  | [] => none
  | _ :: ipRev => some (ipRev.reverse, bitsRev.reverse)

/-- Modelled from the Go standard library (net/netip.ParsePrefix, IPv4
fragment): split at the last slash, parse the address and the bit count,
and require the bit count to be at most the address bit length. -/
def parsePfxStr (s : Str) : Option Pfx :=
  match splitLastSlash s with
  | none => none
  | some (ipStr, bitsStr) =>
    match parseAddr4 ipStr, parseBitsNum bitsStr with
    | some a, some b => if b ≤ 32 then some ⟨a, b⟩ else none
    | _, _ => none

/-- Modelled from the caddyhttp helper that converts a CIDR expression to a
range value: trim the expression; an expression without a slash is parsed
as a bare address and given a full-length mask, otherwise it is parsed as
an address/bits pair. -/
def cidrToPfx (expr : Str) : Option Pfx :=
  let cidr := trimGo expr
  if '/' ∈ cidr then parsePfxStr cidr
  else (parseAddr4 cidr).map (fun a => ⟨a, 32⟩)

/-- Decimal rendering of the four octets of an address value (the Go netip
address String method, IPv4 form). -/
def printAddr (a : Nat) : Str :=
  natDec (a / 16777216 % 256) ++ '.' ::
    (natDec (a / 65536 % 256) ++ '.' ::
      (natDec (a / 256 % 256) ++ '.' :: natDec (a % 256)))

/-- Modelled from the Go netip range String method: the address text, a
slash, and the decimal bit count. -/
def printPfx (p : Pfx) : Str := printAddr p.addr ++ '/' :: natDec p.bits

set_option maxRecDepth 100000 in
/-- Checked facts about rendered octets: every octet value below 256 parses
back from its decimal text, and that text contains no dot, no slash and no
white space. -/
lemma octet_facts : ∀ n < 256, parseOctet (natDec n) = some n ∧
    ('.' ∉ natDec n) ∧ ('/' ∉ natDec n) ∧
    (∀ x ∈ natDec n, isSpaceGo x = false) := by decide

set_option maxRecDepth 100000 in
/-- Checked facts about rendered bit counts: every value up to 32 parses
back from its decimal text, which contains no slash and no white space. -/
lemma bits_facts : ∀ n < 33, parseBitsNum (natDec n) = some n ∧
    ('/' ∉ natDec n) ∧ (∀ x ∈ natDec n, isSpaceGo x = false) := by decide

lemma splitCh_of_not_mem (c : Char) (l : Str) (h : c ∉ l) :
    splitCh c l = [l] := by
  induction l with
  | nil => rfl
  | cons x xs ih =>
    have hx : ¬ x = c := by intro he; exact h (he ▸ List.mem_cons_self x xs)
    have hxs : c ∉ xs := fun hm => h (List.mem_cons_of_mem x hm)
    simp [splitCh, hx, ih hxs]

lemma splitCh_append (c : Char) (a rest : Str) (h : c ∉ a) :
    splitCh c (a ++ c :: rest) = a :: splitCh c rest := by
  induction a with
  | nil => simp [splitCh]
  | cons x xs ih =>
    have hx : ¬ x = c := by intro he; exact h (he ▸ List.mem_cons_self x xs)
    have hxs : c ∉ xs := fun hm => h (List.mem_cons_of_mem x hm)
    simp only [List.cons_append, splitCh, if_neg hx, List.append_eq, ih hxs]

lemma takeWhile_append_stop (p : Char → Bool) (l : Str) (y : Char) (m : Str)
    (hl : ∀ x ∈ l, p x = true) (hy : p y = false) :
    (l ++ y :: m).takeWhile p = l ∧ (l ++ y :: m).dropWhile p = y :: m := by
  induction l with
  | nil => simp [List.takeWhile, List.dropWhile, hy]
  | cons x xs ih =>
    have hx : p x = true := hl x (List.mem_cons_self x xs)
    have hxs : ∀ x ∈ xs, p x = true := fun z hz => hl z (List.mem_cons_of_mem x hz)
    have ⟨ih1, ih2⟩ := ih hxs
    simp [List.takeWhile, List.dropWhile, hx, ih1, ih2]

lemma splitLastSlash_append (a b : Str) (hb : '/' ∉ b) :
    splitLastSlash (a ++ '/' :: b) = some (a, b) := by
  have hrev : (a ++ '/' :: b).reverse = b.reverse ++ '/' :: a.reverse := by
    simp [List.reverse_append]
  have hbr : ∀ x ∈ b.reverse, (decide (x ≠ '/')) = true := by
    intro x hx
    have : x ∈ b := List.mem_reverse.mp hx
    simp only [decide_eq_true_eq]
    intro he; exact hb (he ▸ this)
  have hstop : (decide (('/' : Char) ≠ '/')) = false := by decide
  have ⟨ht, hd⟩ := takeWhile_append_stop (fun x => decide (x ≠ '/'))
      b.reverse '/' a.reverse hbr hstop
  unfold splitLastSlash
  simp only [hrev, ht, hd, List.reverse_reverse]

lemma dropWhile_eq_self_of (p : Char → Bool) (l : Str)
    (h : ∀ x ∈ l, p x = false) : l.dropWhile p = l := by
  cases l with
  | nil => rfl
  | cons x xs => simp [List.dropWhile, h x (List.mem_cons_self x xs)]

lemma trimGo_id (s : Str) (h : ∀ x ∈ s, isSpaceGo x = false) : trimGo s = s := by
  have h1 : s.dropWhile isSpaceGo = s := dropWhile_eq_self_of _ _ h
  have h2 : s.reverse.dropWhile isSpaceGo = s.reverse :=
    dropWhile_eq_self_of _ _ (fun x hx => h x (List.mem_reverse.mp hx))
  unfold trimGo
  rw [h1, h2, List.reverse_reverse]

lemma printAddr_no_slash (a : Nat) :
    ('/' : Char) ∉ printAddr a := by
  have h0 := octet_facts (a / 16777216 % 256) (Nat.mod_lt _ (by omega))
  have h1 := octet_facts (a / 65536 % 256) (Nat.mod_lt _ (by omega))
  have h2 := octet_facts (a / 256 % 256) (Nat.mod_lt _ (by omega))
  have h3 := octet_facts (a % 256) (Nat.mod_lt _ (by omega))
  unfold printAddr
  intro hm
  rcases List.mem_append.mp hm with hm | hm
  · exact h0.2.2.1 hm
  · rcases List.mem_cons.mp hm with hm | hm
    · exact absurd hm (by decide)
    · rcases List.mem_append.mp hm with hm | hm
      · exact h1.2.2.1 hm
      · rcases List.mem_cons.mp hm with hm | hm
        · exact absurd hm (by decide)
        · rcases List.mem_append.mp hm with hm | hm
          · exact h2.2.2.1 hm
          · rcases List.mem_cons.mp hm with hm | hm
            · exact absurd hm (by decide)
            · exact h3.2.2.1 hm

lemma printPfx_no_space (p : Pfx) (h : PfxValid p) :
    ∀ x ∈ printPfx p, isSpaceGo x = false := by
  obtain ⟨ha, hb⟩ := h
  have h0 := octet_facts (p.addr / 16777216 % 256) (Nat.mod_lt _ (by omega))
  have h1 := octet_facts (p.addr / 65536 % 256) (Nat.mod_lt _ (by omega))
  have h2 := octet_facts (p.addr / 256 % 256) (Nat.mod_lt _ (by omega))
  have h3 := octet_facts (p.addr % 256) (Nat.mod_lt _ (by omega))
  have hbits := bits_facts p.bits (by omega)
  intro x hm
  unfold printPfx printAddr at hm
  rcases List.mem_append.mp hm with hm | hm
  · rcases List.mem_append.mp hm with hm | hm
    · exact h0.2.2.2 x hm
    · rcases List.mem_cons.mp hm with hm | hm
      · subst hm; decide
      · rcases List.mem_append.mp hm with hm | hm
        · exact h1.2.2.2 x hm
        · rcases List.mem_cons.mp hm with hm | hm
          · subst hm; decide
          · rcases List.mem_append.mp hm with hm | hm
            · exact h2.2.2.2 x hm
            · rcases List.mem_cons.mp hm with hm | hm
              · subst hm; decide
              · exact h3.2.2.2 x hm
  · rcases List.mem_cons.mp hm with hm | hm
    · subst hm; decide
    · exact hbits.2.2 x hm

lemma parseAddr4_printAddr (a : Nat) (h : a < 4294967296) :
    parseAddr4 (printAddr a) = some a := by
  have h0 := octet_facts (a / 16777216 % 256) (Nat.mod_lt _ (by omega))
  have h1 := octet_facts (a / 65536 % 256) (Nat.mod_lt _ (by omega))
  have h2 := octet_facts (a / 256 % 256) (Nat.mod_lt _ (by omega))
  have h3 := octet_facts (a % 256) (Nat.mod_lt _ (by omega))
  have hsplit : splitCh '.' (printAddr a) =
      [natDec (a / 16777216 % 256), natDec (a / 65536 % 256),
        natDec (a / 256 % 256), natDec (a % 256)] := by
    unfold printAddr
    rw [splitCh_append _ _ _ h0.2.1, splitCh_append _ _ _ h1.2.1,
      splitCh_append _ _ _ h2.2.1, splitCh_of_not_mem _ _ h3.2.1]
  unfold parseAddr4
  rw [hsplit]
  simp only [h0.1, h1.1, h2.1, h3.1]
  congr 1
  omega

/-- Round trip for the library pair: parsing the rendered text of a valid
range value yields that value back. -/
lemma cidrToPfx_printPfx (p : Pfx) (h : PfxValid p) :
    cidrToPfx (printPfx p) = some p := by
  obtain ⟨ha, hb⟩ := h
  have htrim : trimGo (printPfx p) = printPfx p :=
    trimGo_id _ (printPfx_no_space p ⟨ha, hb⟩)
  have hmem : ('/' : Char) ∈ printPfx p := by
    unfold printPfx
    exact List.mem_append.mpr (Or.inr (List.mem_cons_self _ _))
  have hsplit : splitLastSlash (printPfx p) = some (printAddr p.addr, natDec p.bits) := by
    unfold printPfx
    exact splitLastSlash_append _ _ (bits_facts p.bits (by omega)).2.1
  unfold cidrToPfx
  simp only [htrim, if_pos hmem]
  unfold parsePfxStr
  rw [hsplit]
  simp only [parseAddr4_printAddr p.addr ha, (bits_facts p.bits (by omega)).1]
  simp [hb]

/-- The error values produced inside fetch.  Library errors with no fixed
text (request building, transport, body-read failures) are modelled with an
identifying token; the texts the repository itself formats are rendered by
errMsg below. -/
inductive FetchErr where
  | build (n : Nat)
  | transport (n : Nat)
  | httpStatus (api : Str) (code : Nat)
  | scan (n : Nat)
  | parse (line : Str)
  | nilErr
  | afterRetries (retries : Int) (last : FetchErr)
deriving DecidableEq, Repr

/-- The outcome the environment assigns to one HTTP attempt: building the
request fails, the round trip fails, or a response arrives with a status
code, the body bytes the scanner delivers, and an optional read error the
scanner reports after those bytes. -/
inductive Outcome where
  | buildErr (n : Nat)
  | doErr (n : Nat)
  | resp (code : Nat) (body : Str) (readErr : Option Nat)
deriving DecidableEq, Repr

/-- One iteration of the line loop in fetch: cut the line at the first
number sign, then trim surrounding white space. -/
def cleanLine (line : Str) : Str := trimGo (line.takeWhile (· ≠ '#'))

/-- The body of the scan loop in fetch: clean every line, skip lines that
clean to nothing, convert the rest; the first conversion failure aborts
with that error, carrying the offending line. -/
def parseLinesGo : List Str → Except FetchErr (List Pfx)
  | [] => .ok []
  | line :: rest =>
    let l := cleanLine line
    if l = [] then parseLinesGo rest
    else
      match cidrToPfx l with
      | none => .error (.parse l)
      | some p => (parseLinesGo rest).map (fun ps => p :: ps)

/-- Classification of an attempt outcome: the retryable error it stores in
lastErr, or none when the attempt ends the loop (success, a conversion
failure, or a request-build failure, which breaks out of the loop). -/
def retryErr (api : Str) : Outcome → Option FetchErr
  | .buildErr _ => none
  | .doErr n => some (.transport n)
  | .resp code body readErr =>
    if code < 200 ∨ 299 < code then some (.httpStatus api code)
    else
      match parseLinesGo (toLines body) with
      | .error _ => none
      | .ok _ => readErr.map FetchErr.scan

/-- The retry loop of fetch, one constructor case per branch of the source:
arguments are the attempt index, the count of HTTP requests issued so far,
the remaining attempt budget, and lastErr.  The first component of the
result is the total number of HTTP requests issued. -/
def fetchAux (api : Str) (retries : Int) (outcomes : Nat → Outcome) :
    Nat → Nat → Nat → Option FetchErr → Nat × Except FetchErr (List Pfx)
  | _, made, 0, lastErr =>
    (made, .error (.afterRetries retries (lastErr.getD .nilErr)))
  | attempt, made, fuel + 1, _lastErr =>
    match outcomes attempt with
    | .buildErr n => (made, .error (.afterRetries retries (.build n)))
    | .doErr n =>
      fetchAux api retries outcomes (attempt + 1) (made + 1) fuel (some (.transport n))
    | .resp code body readErr =>
      if code < 200 ∨ 299 < code then
        fetchAux api retries outcomes (attempt + 1) (made + 1) fuel
          (some (.httpStatus api code))
      else
        match parseLinesGo (toLines body) with
        | .error e => (made + 1, .error e)
        | .ok ps =>
          match readErr with
          | some n =>
            fetchAux api retries outcomes (attempt + 1) (made + 1) fuel
              (some (.scan n))
          | none => (made + 1, .ok ps)

/-- The module configuration: the static fields of the URLIPRange struct
(the mutable ranges field lives in ModSt below). -/
structure URLIPRange where
  URLs : List Str
  Interval : Int
  Timeout : Int
  Retries : Int
  CacheFile : Str
deriving DecidableEq, Repr

/-- Contents of the cache file: the rendered range texts and the write
timestamp. -/
structure cacheFileContents where
  prefixes : List Str
  updatedAt : Int
deriving DecidableEq, Repr

/-- The state of the cache file on disk: missing (open fails), present but
undecodable, or a decoded record. -/
inductive FileState where
  | absent
  | corrupt (n : Nat)
  | stored (r : cacheFileContents)
deriving DecidableEq, Repr

/-- The filesystem, as the file state at every path. -/
abbrev FS := Str → FileState

/-- The external world the module runs against: the outcome of every HTTP
attempt per URL, whether a cache write fails, the clock, the content hash
function and the application data directory. -/
structure Env where
  outcomes : Str → Nat → Outcome
  saveFails : Bool
  now : Int
  sha256hex : Str → Str
  appDataDir : Str

/-- fetch for one URL: run the retry loop with budget Retries + 1 (empty
for a negative retry count, as the Go loop would be) and no prior error. -/
def fetch (cfg : URLIPRange) (env : Env) (api : Str) :
    Nat × Except FetchErr (List Pfx) :=
  fetchAux api cfg.Retries (env.outcomes api) 0 0 (cfg.Retries + 1).toNat none

/-- The value fetch returns (dropping the attempt counter the model adds). -/
def fetchRes (cfg : URLIPRange) (env : Env) (api : Str) :
    Except FetchErr (List Pfx) :=
  (fetch cfg env api).2

/-- The error texts: the two formats the repository builds with fmt.Errorf,
and placeholder renderings for opaque library errors. -/
def errMsg : FetchErr → Str
  | .build n => ("request error ").toList ++ natDec n
  | .transport n => ("transport error ").toList ++ natDec n
  | .httpStatus api code =>
    ("fetch ").toList ++ api ++ (" returned HTTP ").toList ++ natDec code
  | .scan n => ("read error ").toList ++ natDec n
  | .parse l => ("parsing CIDR expression: ").toList ++ l
  | .nilErr => ("%!w(<nil>)").toList
  | .afterRetries r last =>
    ("after ").toList ++ intDec r ++ (" retries: ").toList ++ errMsg last

/-- The loop body of getPrefixes: fetch every URL in order, concatenating
results; the first failure aborts with that error. -/
def getPrefixesAux (cfg : URLIPRange) (env : Env) : List Str → Except FetchErr (List Pfx)
  | [] => .ok []
  | url :: rest =>
    match fetchRes cfg env url with
    | .error e => .error e
    | .ok ps => (getPrefixesAux cfg env rest).map (fun acc => ps ++ acc)

/-- getPrefixes: aggregate over the configured URL list. -/
def getPrefixes (cfg : URLIPRange) (env : Env) : Except FetchErr (List Pfx) :=
  getPrefixesAux cfg env cfg.URLs

/-- strings.Join with the vertical-bar separator, as cachePath builds the
hash input. -/
def joinBar : List Str → Str
  | [] => []
  | [u] => u
  | u :: v :: rest => u ++ '|' :: joinBar (v :: rest)

/-- Modelled from filepath.Join restricted to the two shapes cachePath
builds: joining from the current-directory fallback cleans the dot away. -/
def pathJoin (dir name : Str) : Str :=
  if dir = (".").toList then name else dir ++ '/' :: name

/-- cachePath: an explicit override is returned as is; otherwise the URL
list is joined with vertical bars, hashed, rendered as a JSON filename and
placed under the application data directory, or the current working
directory when none is resolvable. -/
def cachePath (env : Env) (cfg : URLIPRange) : Str :=
  if cfg.CacheFile ≠ [] then cfg.CacheFile
  else
    let joined := joinBar cfg.URLs
    let name := ("ip-list-cache-").toList ++ env.sha256hex joined ++ (".json").toList
    let dir := if env.appDataDir = [] then (".").toList else env.appDataDir
    pathJoin dir name

/-- The error values produced by the cache store: open failure, decode
failure, an invalid stored range text, or a write failure. -/
inductive CacheErr where
  | openErr
  | decodeErr (n : Nat)
  | invalidEntry (s : Str)
  | ioErr
deriving DecidableEq, Repr

/-- The validation loop of loadFromCache: convert every stored text back to
a range value; the first invalid entry fails the whole load. -/
def parseCacheEntries : List Str → Except CacheErr (List Pfx)
  | [] => .ok []
  | s :: rest =>
    match cidrToPfx s with
    | none => .error (.invalidEntry s)
    | some p => (parseCacheEntries rest).map (fun ps => p :: ps)

/-- loadFromCache: open the file at cachePath, decode it, and re-validate
every stored range text. -/
def loadFromCache (env : Env) (cfg : URLIPRange) (fs : FS) :
    Except CacheErr (List Pfx) :=
  match fs (cachePath env cfg) with
  | .absent => .error .openErr
  | .corrupt n => .error (.decodeErr n)
  | .stored r => parseCacheEntries r.prefixes

/-- Point update of the filesystem, the net effect of the
write-temporary-then-rename pattern in saveToCache. -/
def fsUpdate (fs : FS) (path : Str) (st : FileState) : FS :=
  fun q => if q = path then st else fs q

/-- saveToCache: render every range, stamp the record with the current
time, and atomically publish it at cachePath; any I/O failure leaves the
previously committed file untouched. -/
def saveToCache (env : Env) (cfg : URLIPRange) (fs : FS) (ps : List Pfx) :
    FS × Option CacheErr :=
  if env.saveFails then (fs, some .ioErr)
  else
    (fsUpdate fs (cachePath env cfg)
      (.stored { prefixes := ps.map printPfx, updatedAt := env.now }), none)

/-- The mutable state of a provisioned module: the published ranges and the
filesystem holding the cache file. -/
structure ModSt where
  ranges : List Pfx
  fs : FS

/-- Provision: fetch once; on success publish and best-effort save; on
failure fall back to the cache, and fail only when both fail, with an error
carrying the fetch error and the cache error. -/
def Provision (cfg : URLIPRange) (env : Env) (fs : FS) :
    Except (FetchErr × CacheErr) ModSt :=
  match getPrefixes cfg env with
  | .error e =>
    match loadFromCache env cfg fs with
    | .error ce => .error (e, ce)
    | .ok cached => .ok { ranges := cached, fs := fs }
  | .ok initialRanges =>
    .ok { ranges := initialRanges, fs := (saveToCache env cfg fs initialRanges).1 }

/-- One expiry of the ticker in refreshLoop: on fetch failure keep the
state untouched; on success replace the ranges wholesale and best-effort
save the cache. -/
def refreshTick (cfg : URLIPRange) (env : Env) (st : ModSt) : ModSt :=
  match getPrefixes cfg env with
  | .error _ => st
  | .ok fullPrefixes =>
    { ranges := fullPrefixes, fs := (saveToCache env cfg st.fs fullPrefixes).1 }

/-- A parsed configuration directive, as the dispenser hands it to the
switch in UnmarshalCaddyfile; duration and retry values carry the result of
the library value parse (caddy.ParseDuration, fmt.Sscanf). -/
inductive Directive where
  | interval (v : Except Unit Int)
  | timeout (v : Except Unit Int)
  | retries (v : Except Unit Int)
  | cacheFile (s : Str)
  | url (s : Str)
deriving Repr

/-- The zero value of the configuration struct, the receiver UnmarshalCaddyfile
starts from. -/
def zeroURLIPRange : URLIPRange :=
  { URLs := [], Interval := 0, Timeout := 0, Retries := 0, CacheFile := [] }

/-- One arm of the switch in UnmarshalCaddyfile. -/
def unmarshalStep (m : URLIPRange) : Directive → Except Unit URLIPRange
  | .interval (.error _) => .error ()
  | .interval (.ok v) => .ok { m with Interval := v }
  | .timeout (.error _) => .error ()
  | .timeout (.ok v) => .ok { m with Timeout := v }
  | .retries (.error _) => .error ()
  | .retries (.ok n) => if n < 0 then .error () else .ok { m with Retries := n }
  | .cacheFile s => .ok { m with CacheFile := s }
  | .url s => .ok { m with URLs := m.URLs ++ [s] }

/-- UnmarshalCaddyfile, with the dispenser walk (caddy library code)
abstracted into a directive list: fold the switch over the block's
directives, aborting at the first failing arm.  No arm inspects how many
URLs have been collected. -/
def unmarshalCaddyfile : List Directive → URLIPRange → Except Unit URLIPRange
  | [], m => .ok m
  | d :: rest, m =>
    match unmarshalStep m d with
    | .error e => .error e
    | .ok m' => unmarshalCaddyfile rest m'

lemma fetchAux_step (api : Str) (retries : Int) (oc : Nat → Outcome)
    (attempt made fuel : Nat) (lastErr : Option FetchErr) (e : FetchErr)
    (h : retryErr api (oc attempt) = some e) :
    fetchAux api retries oc attempt made (fuel + 1) lastErr =
      fetchAux api retries oc (attempt + 1) (made + 1) fuel (some e) := by
  cases hoc : oc attempt with
  | buildErr n => simp [retryErr, hoc] at h
  | doErr n =>
    simp only [retryErr, hoc, Option.some.injEq] at h
    subst h
    simp [fetchAux, hoc]
  | resp code body readErr =>
    by_cases hcode : code < 200 ∨ 299 < code
    · simp only [retryErr, hoc, if_pos hcode, Option.some.injEq] at h
      subst h
      simp [fetchAux, hoc, hcode]
    · cases hp : parseLinesGo (toLines body) with
      | error pe => simp [retryErr, hoc, if_neg hcode, hp] at h
      | ok ps =>
        cases readErr with
        | none => simp [retryErr, hoc, if_neg hcode, hp] at h
        | some n =>
          simp only [retryErr, hoc, if_neg hcode, hp] at h
          have h2 : FetchErr.scan n = e := by simpa using h
          subst h2
          simp [fetchAux, hoc, hcode, hp]

/-- The value in lastErr after skipping a block of failing attempts. -/
def lastOf (api : Str) (oc : Nat → Outcome) (attempt : Nat)
    (le : Option FetchErr) : Nat → Option FetchErr
  | 0 => le
  | k + 1 => retryErr api (oc (attempt + k))

lemma fetchAux_skip (api : Str) (retries : Int) (oc : Nat → Outcome) (k : Nat) :
    ∀ attempt made fuel le,
      (∀ i < k, (retryErr api (oc (attempt + i))).isSome) →
      fetchAux api retries oc attempt made (k + fuel) le =
        fetchAux api retries oc (attempt + k) (made + k) fuel
          (lastOf api oc attempt le k) := by
  induction k with
  | zero => intro attempt made fuel le _; simp [lastOf]
  | succ k ih =>
    intro attempt made fuel le h
    have h0 : (retryErr api (oc attempt)).isSome := by
      have := h 0 (by omega); simpa using this
    obtain ⟨e, he⟩ := Option.isSome_iff_exists.mp h0
    have hshift : ∀ i < k, (retryErr api (oc (attempt + 1 + i))).isSome := by
      intro i hi
      have := h (i + 1) (by omega)
      have harith : attempt + (i + 1) = attempt + 1 + i := by omega
      rwa [harith] at this
    have hfuel : k + 1 + fuel = (k + fuel) + 1 := by omega
    rw [hfuel, fetchAux_step api retries oc attempt made (k + fuel) le e he,
      ih (attempt + 1) (made + 1) fuel (some e) hshift]
    have ha : attempt + 1 + k = attempt + (k + 1) := by omega
    have hm : made + 1 + k = made + (k + 1) := by omega
    have hl : lastOf api oc (attempt + 1) (some e) k =
        lastOf api oc attempt le (k + 1) := by
      cases k with
      | zero => simp [lastOf, ← he]
      | succ k' =>
        show retryErr api (oc (attempt + 1 + k')) = retryErr api (oc (attempt + (k' + 1)))
        have harith : attempt + 1 + k' = attempt + (k' + 1) := by omega
        rw [harith]
    rw [ha, hm, hl]

lemma fetchAux_success (api : Str) (retries : Int) (oc : Nat → Outcome)
    (attempt made fuel : Nat) (le : Option FetchErr) (code : Nat) (body : Str)
    (ps : List Pfx)
    (hoc : oc attempt = .resp code body none)
    (hcode : ¬ (code < 200 ∨ 299 < code))
    (hp : parseLinesGo (toLines body) = .ok ps) :
    fetchAux api retries oc attempt made (fuel + 1) le = (made + 1, .ok ps) := by
  simp [fetchAux, hoc, hcode, hp]

lemma fetchAux_parse_abort (api : Str) (retries : Int) (oc : Nat → Outcome)
    (attempt made fuel : Nat) (le : Option FetchErr) (code : Nat) (body : Str)
    (readErr : Option Nat) (pe : FetchErr)
    (hoc : oc attempt = .resp code body readErr)
    (hcode : ¬ (code < 200 ∨ 299 < code))
    (hp : parseLinesGo (toLines body) = .error pe) :
    fetchAux api retries oc attempt made (fuel + 1) le = (made + 1, .error pe) := by
  simp [fetchAux, hoc, hcode, hp]

/-- An environment whose source always answers HTTP 500. -/
def envStatus500 : Env :=
  { outcomes := fun _ _ => .resp 500 [] none, saveFails := false, now := 0,
    sha256hex := fun s => s, appDataDir := [] }

/-- An environment whose source fails twice with HTTP 500 and then delivers
one valid range line. -/
def envFlaky : Env :=
  { outcomes := fun _ n => if n < 2 then .resp 500 [] none
      else .resp 200 (("192.0.2.1/32\n").toList) none,
    saveFails := false, now := 0, sha256hex := fun s => s, appDataDir := [] }

/-- An environment whose source answers 200 with a malformed range line. -/
def envBadBody : Env :=
  { outcomes := fun _ _ => .resp 200 (("bad\n").toList) none, saveFails := false,
    now := 0, sha256hex := fun s => s, appDataDir := [] }

/-- C1 counterexample: with one retry configured and a source that always
fails, the loop makes two attempts, and the returned error is rendered
"after 1 retries: fetch u returned HTTP 500" — the digit of the attempt
count, two, appears nowhere in the message, so the error names the
configured retry count and not the attempt count. -/
theorem fetch_error_counterexample :
    fetch { zeroURLIPRange with Retries := 1 } envStatus500 (("u").toList) =
      (2, .error (.afterRetries 1 (.httpStatus (("u").toList) 500))) ∧
    '2' ∉ errMsg (FetchErr.afterRetries 1 (.httpStatus (("u").toList) 500)) := by
  exact ⟨rfl, by decide⟩

/-- C1 (amended): for every source failing retryably exactly k times with
k at most the retry count and then succeeding, fetch makes exactly k + 1
attempts and returns the parsed contents of the successful response; for a
source that always fails retryably with retry count r, fetch makes exactly
r + 1 attempts and returns an error that names the configured retry count
(one less than the attempt count) and wraps the last retryable error. -/
theorem fetch_retry_budget (cfg : URLIPRange) (env : Env) (api : Str) (r : Nat)
    (hr : cfg.Retries = (r : Int)) :
    (∀ k code body ps, k ≤ r →
      (∀ i < k, (retryErr api (env.outcomes api i)).isSome) →
      env.outcomes api k = .resp code body none →
      ¬ (code < 200 ∨ 299 < code) →
      parseLinesGo (toLines body) = .ok ps →
      fetch cfg env api = (k + 1, .ok ps)) ∧
    (∀ elast,
      (∀ i, i ≤ r → (retryErr api (env.outcomes api i)).isSome) →
      retryErr api (env.outcomes api r) = some elast →
      fetch cfg env api = (r + 1, .error (.afterRetries (r : Int) elast)) ∧
      errMsg (FetchErr.afterRetries (r : Int) elast) =
        ("after ").toList ++ intDec (r : Int) ++ (" retries: ").toList ++
          errMsg elast) := by
  constructor
  · intro k code body ps hk hfail hoc hcode hp
    unfold fetch
    rw [hr]
    have h1 : ((r : Nat) : Int).toNat + 1 = k + ((r - k) + 1) := by omega
    have h2 : (((r : Nat) : Int) + 1).toNat = k + ((r - k) + 1) := by omega
    rw [h2, fetchAux_skip api _ (env.outcomes api) k 0 0 ((r - k) + 1) none
      (by intro i hi; simpa using hfail i hi)]
    simp only [Nat.zero_add]
    exact fetchAux_success api _ _ k k (r - k) _ code body ps hoc hcode hp
  · intro elast hfail hlast
    refine ⟨?_, rfl⟩
    unfold fetch
    rw [hr]
    have h2 : (((r : Nat) : Int) + 1).toNat = (r + 1) + 0 := by omega
    rw [h2, fetchAux_skip api _ (env.outcomes api) (r + 1) 0 0 0 none
      (by intro i hi; simpa using hfail i (by omega))]
    have hlast' : lastOf api (env.outcomes api) 0 none (r + 1) = some elast := by
      show retryErr api (env.outcomes api (0 + r)) = some elast
      simpa using hlast
    rw [hlast']
    simp [fetchAux]

/-- Witness for C1: the flaky source (two HTTP 500 answers, then one valid
line) with two retries succeeds on the third attempt; the dead source with
two retries fails after exactly three attempts, wrapping the last HTTP 500
error. -/
theorem fetch_retry_budget_witness :
    fetch { zeroURLIPRange with Retries := 2 } envFlaky (("u").toList) =
      (3, .ok [⟨3221225985, 32⟩]) ∧
    fetch { zeroURLIPRange with Retries := 2 } envStatus500 (("u").toList) =
      (3, .error (.afterRetries 2 (.httpStatus (("u").toList) 500))) := by
  constructor
  · exact (fetch_retry_budget _ envFlaky (("u").toList) 2 rfl).1 2 200
      (("192.0.2.1/32\n").toList) [⟨3221225985, 32⟩] (by omega)
      (by decide) rfl (by decide) rfl
  · exact ((fetch_retry_budget _ envStatus500 (("u").toList) 2 rfl).2
      (.httpStatus (("u").toList) 500) (by decide) (by decide)).1

/-- C3: a 2xx response whose body contains a malformed range line aborts
fetch immediately with the conversion error — after j retryable failures
the total attempt count is j + 1 even when j is strictly below the retry
budget — and such an outcome is never classified as retryable: only
transport-class failures and non-2xx statuses are. -/
theorem fetch_parse_error_aborts (cfg : URLIPRange) (env : Env) (api : Str)
    (r j code : Nat) (body : Str) (readErr : Option Nat) (pe : FetchErr)
    (hr : cfg.Retries = (r : Int)) (hj : j ≤ r)
    (hfail : ∀ i < j, (retryErr api (env.outcomes api i)).isSome)
    (hoc : env.outcomes api j = .resp code body readErr)
    (hcode : ¬ (code < 200 ∨ 299 < code))
    (hp : parseLinesGo (toLines body) = .error pe) :
    fetch cfg env api = (j + 1, .error pe) ∧
    retryErr api (.resp code body readErr) = none := by
  constructor
  · unfold fetch
    rw [hr]
    have h2 : (((r : Nat) : Int) + 1).toNat = j + ((r - j) + 1) := by omega
    rw [h2, fetchAux_skip api _ (env.outcomes api) j 0 0 ((r - j) + 1) none
      (by intro i hi; simpa using hfail i hi)]
    simp only [Nat.zero_add]
    exact fetchAux_parse_abort api _ _ j j (r - j) _ code body readErr pe
      hoc hcode hp
  · simp [retryErr, hcode, hp]

/-- Witness for C3: a source answering 200 with the body "bad" aborts on
the first attempt with the conversion error even though two retries
remain. -/
theorem fetch_parse_error_aborts_witness :
    fetch { zeroURLIPRange with Retries := 2 } envBadBody (("u").toList) =
      (1, .error (.parse (("bad").toList))) ∧
    retryErr (("u").toList) (.resp 200 (("bad\n").toList) none) = none := by
  exact fetch_parse_error_aborts _ envBadBody (("u").toList) 2 0 200
    (("bad\n").toList) none (.parse (("bad").toList)) rfl (by omega)
    (by intro i hi; omega) rfl (by decide) rfl

lemma getPrefixesAux_ok (cfg : URLIPRange) (env : Env) (f : Str → List Pfx) :
    ∀ urls : List Str, (∀ u ∈ urls, fetchRes cfg env u = .ok (f u)) →
      getPrefixesAux cfg env urls = .ok ((urls.map f).flatten) := by
  intro urls
  induction urls with
  | nil => intro _; simp [getPrefixesAux]
  | cons u rest ih =>
    intro h
    have hu := h u (List.mem_cons_self u rest)
    have hrest := ih (fun v hv => h v (List.mem_cons_of_mem u hv))
    simp [getPrefixesAux, Except.map, hu, hrest]

lemma getPrefixesAux_error (cfg : URLIPRange) (env : Env) (u : Str)
    (post : List Str) (e : FetchErr) (he : fetchRes cfg env u = .error e) :
    ∀ pre : List Str, (∀ v ∈ pre, ∃ qs, fetchRes cfg env v = .ok qs) →
      getPrefixesAux cfg env (pre ++ u :: post) = .error e := by
  intro pre
  induction pre with
  | nil => intro _; simp [getPrefixesAux, he]
  | cons v vs ih =>
    intro h
    obtain ⟨qs, hq⟩ := h v (List.mem_cons_self v vs)
    have hrest := ih (fun w hw => h w (List.mem_cons_of_mem v hw))
    simp [getPrefixesAux, Except.map, hq, hrest]

/-- C7: the aggregator walks the configured URL list strictly in order,
concatenating the per-URL results in that order; the first URL whose fetch
fails aborts the whole aggregation with exactly that error, and no partial
result is returned. -/
theorem aggregator_in_order (cfg : URLIPRange) (env : Env) :
    (∀ f : Str → List Pfx, (∀ u ∈ cfg.URLs, fetchRes cfg env u = .ok (f u)) →
      getPrefixes cfg env = .ok ((cfg.URLs.map f).flatten)) ∧
    (∀ pre u post e, cfg.URLs = pre ++ u :: post →
      (∀ v ∈ pre, ∃ qs, fetchRes cfg env v = .ok qs) →
      fetchRes cfg env u = .error e →
      getPrefixes cfg env = .error e) := by
  constructor
  · intro f h
    exact getPrefixesAux_ok cfg env f cfg.URLs h
  · intro pre u post e hurls hpre he
    unfold getPrefixes
    rw [hurls]
    exact getPrefixesAux_error cfg env u post e he pre hpre

/-- A configuration listing the two source URLs "a" and "b". -/
def cfgTwo : URLIPRange :=
  { zeroURLIPRange with URLs := [("a").toList, ("b").toList] }

/-- An environment answering URL "a" with one range line and URL "b" with
another. -/
def envTwo : Env :=
  { outcomes := fun u _ => if u = ("a").toList
      then .resp 200 (("10.0.0.0/8\n").toList) none
      else .resp 200 (("172.16.0.0/12\n").toList) none,
    saveFails := false, now := 0, sha256hex := fun s => s, appDataDir := [] }

/-- An environment where URL "a" answers normally and every other URL
answers HTTP 500. -/
def envSecondDown : Env :=
  { outcomes := fun u _ => if u = ("a").toList
      then .resp 200 (("10.0.0.0/8\n").toList) none
      else .resp 500 [] none,
    saveFails := false, now := 0, sha256hex := fun s => s, appDataDir := [] }

/-- Witness for C7: with both sources up the aggregate is the two parsed
ranges in configuration order; with the second source down the aggregation
fails with the second source's wrapped HTTP 500 error. -/
theorem aggregator_in_order_witness :
    getPrefixes cfgTwo envTwo = .ok [⟨167772160, 8⟩, ⟨2886729728, 12⟩] ∧
    getPrefixes cfgTwo envSecondDown =
      .error (.afterRetries 0 (.httpStatus (("b").toList) 500)) := by
  constructor
  · have h := (aggregator_in_order cfgTwo envTwo).1
      (fun u => if u = ("a").toList then [⟨167772160, 8⟩] else [⟨2886729728, 12⟩])
      (by
        intro u hu
        rcases List.mem_cons.mp hu with rfl | hu
        · rfl
        · rcases List.mem_cons.mp hu with rfl | hu
          · rfl
          · cases hu)
    exact h
  · exact (aggregator_in_order cfgTwo envSecondDown).2 [("a").toList]
      (("b").toList) [] _ rfl
      (by
        intro v hv
        rcases List.mem_cons.mp hv with rfl | hv
        · exact ⟨[⟨167772160, 8⟩], rfl⟩
        · cases hv)
      rfl

/-- C2: the Starting-state contract of Provision: a successful initial
fetch publishes the fetched ranges and attempts a cache save whose failure
is non-fatal (the filesystem is then left unchanged); a failed fetch with a
successful cache load publishes exactly the cached set and writes nothing;
when both fail, Provision returns the error carrying both causes. -/
theorem provision_starting_contract (cfg : URLIPRange) (env : Env) (fs : FS) :
    (∀ ps, getPrefixes cfg env = .ok ps →
      Provision cfg env fs =
        .ok { ranges := ps, fs := (saveToCache env cfg fs ps).1 } ∧
      (env.saveFails = true → (saveToCache env cfg fs ps).1 = fs)) ∧
    (∀ e cached, getPrefixes cfg env = .error e →
      loadFromCache env cfg fs = .ok cached →
      Provision cfg env fs = .ok { ranges := cached, fs := fs }) ∧
    (∀ e ce, getPrefixes cfg env = .error e →
      loadFromCache env cfg fs = .error ce →
      Provision cfg env fs = .error (e, ce)) := by
  refine ⟨?_, ?_, ?_⟩
  · intro ps h
    exact ⟨by simp [Provision, h], fun hs => by simp [saveToCache, hs]⟩
  · intro e cached h hl
    simp [Provision, h, hl]
  · intro e ce h hl
    simp [Provision, h, hl]

/-- The empty filesystem: no cache file exists anywhere. -/
def fsAbsent : FS := fun _ => .absent

/-- A pre-existing valid cache record holding one range. -/
def recGood : cacheFileContents :=
  { prefixes := [("10.0.0.0/8").toList], updatedAt := 7 }

/-- A filesystem holding the valid cache record at every path. -/
def fsWithCache : FS := fun _ => .stored recGood

/-- Witness for C2: the three startup scenarios at concrete inputs — both
sources up (fetch result published, save attempted), sources down with a
valid cache (cached set published, filesystem untouched), and sources down
with no cache (provisioning fails with both causes). -/
theorem provision_starting_contract_witness :
    Provision cfgTwo envTwo fsAbsent =
      .ok { ranges := [⟨167772160, 8⟩, ⟨2886729728, 12⟩],
            fs := (saveToCache envTwo cfgTwo fsAbsent
              [⟨167772160, 8⟩, ⟨2886729728, 12⟩]).1 } ∧
    Provision cfgTwo envStatus500 fsWithCache =
      .ok { ranges := [⟨167772160, 8⟩], fs := fsWithCache } ∧
    Provision cfgTwo envStatus500 fsAbsent =
      .error (.afterRetries 0 (.httpStatus (("a").toList) 500), .openErr) := by
  refine ⟨?_, ?_, ?_⟩
  · exact ((provision_starting_contract cfgTwo envTwo fsAbsent).1
      [⟨167772160, 8⟩, ⟨2886729728, 12⟩] rfl).1
  · exact (provision_starting_contract cfgTwo envStatus500 fsWithCache).2.1
      (.afterRetries 0 (.httpStatus (("a").toList) 500)) [⟨167772160, 8⟩] rfl rfl
  · exact (provision_starting_contract cfgTwo envStatus500 fsAbsent).2.2
      (.afterRetries 0 (.httpStatus (("a").toList) 500)) .openErr rfl rfl

/-- C4: one tick of the refresh loop: when the aggregate fetch fails the
whole state — published ranges and the on-disk cache — is left exactly as
it was; when it succeeds the published ranges are replaced wholesale with
the new set. -/
theorem refresh_failure_frame (cfg : URLIPRange) (env : Env) (st : ModSt) :
    (∀ e, getPrefixes cfg env = .error e → refreshTick cfg env st = st) ∧
    (∀ ps, getPrefixes cfg env = .ok ps →
      (refreshTick cfg env st).ranges = ps ∧
      (refreshTick cfg env st).fs = (saveToCache env cfg st.fs ps).1) := by
  constructor
  · intro e h
    simp [refreshTick, h]
  · intro ps h
    simp [refreshTick, h]

/-- Witness for C4: with the sources down a tick leaves the concrete state
untouched; with the sources up a tick replaces the ranges with the two
fetched ones. -/
theorem refresh_failure_frame_witness :
    refreshTick cfgTwo envStatus500 { ranges := [⟨167772160, 8⟩], fs := fsWithCache } =
      { ranges := [⟨167772160, 8⟩], fs := fsWithCache } ∧
    (refreshTick cfgTwo envTwo { ranges := [⟨167772160, 8⟩], fs := fsWithCache }).ranges =
      [⟨167772160, 8⟩, ⟨2886729728, 12⟩] := by
  constructor
  · exact (refresh_failure_frame cfgTwo envStatus500 _).1
      (.afterRetries 0 (.httpStatus (("a").toList) 500)) rfl
  · exact ((refresh_failure_frame cfgTwo envTwo _).2
      [⟨167772160, 8⟩, ⟨2886729728, 12⟩] rfl).1

lemma parseCacheEntries_map (P : List Pfx) (h : ∀ p ∈ P, PfxValid p) :
    parseCacheEntries (P.map printPfx) = .ok P := by
  induction P with
  | nil => rfl
  | cons p rest ih =>
    have hp := cidrToPfx_printPfx p (h p (List.mem_cons_self p rest))
    have hrest := ih (fun q hq => h q (List.mem_cons_of_mem p hq))
    simp [parseCacheEntries, Except.map, hp, hrest]

/-- C5: cache round trip: saving any list of representable ranges and then
loading yields exactly that list, order preserved. -/
theorem cache_round_trip (cfg : URLIPRange) (env : Env) (fs : FS) (P : List Pfx)
    (hsave : env.saveFails = false) (hval : ∀ p ∈ P, PfxValid p) :
    loadFromCache env cfg (saveToCache env cfg fs P).1 = .ok P := by
  simp [saveToCache, hsave, loadFromCache, fsUpdate, parseCacheEntries_map P hval]

/-- Witness for C5: a concrete two-range list survives the save/load round
trip unchanged. -/
theorem cache_round_trip_witness :
    loadFromCache envTwo cfgTwo
      (saveToCache envTwo cfgTwo fsAbsent [⟨167772160, 8⟩, ⟨3221225985, 32⟩]).1 =
      .ok [⟨167772160, 8⟩, ⟨3221225985, 32⟩] :=
  cache_round_trip cfgTwo envTwo fsAbsent _ rfl (by decide)

/-- A configuration whose single URL already contains the join separator. -/
def cfgJoinA : URLIPRange := { zeroURLIPRange with URLs := [("a|b").toList] }

/-- A configuration with two URLs that join to the same hash input as
cfgJoinA's single URL. -/
def cfgJoinB : URLIPRange :=
  { zeroURLIPRange with URLs := [("a").toList, ("b").toList] }

/-- C6 counterexample: two configurations with different URL lists resolve
to the same derived cache path, because the vertical-bar join of their URL
lists coincides and the hash input is therefore identical. -/
theorem cache_path_counterexample :
    cachePath envStatus500 cfgJoinA = cachePath envStatus500 cfgJoinB ∧
    cfgJoinA.URLs ≠ cfgJoinB.URLs := by
  exact ⟨rfl, by decide⟩

lemma pathJoin_inj (dir n1 n2 : Str) (h : pathJoin dir n1 = pathJoin dir n2) :
    n1 = n2 := by
  unfold pathJoin at h
  by_cases hd : dir = (".").toList
  · simpa [hd] using h
  · simp only [if_neg hd] at h
    simpa using List.append_cancel_left h

/-- C6 (amended): an explicit override path is returned as is; two
configurations with identical ordered URL lists resolve to the same derived
path; and two configurations resolve to different derived paths whenever
the hashes of their joined URL lists differ — distinctness holds only up to
the join and the hash, not for arbitrary differing URL lists. -/
theorem cache_path_resolution :
    (∀ (env : Env) (cfg : URLIPRange), cfg.CacheFile ≠ [] →
      cachePath env cfg = cfg.CacheFile) ∧
    (∀ (env : Env) (cfg1 cfg2 : URLIPRange), cfg1.CacheFile = [] →
      cfg2.CacheFile = [] → cfg1.URLs = cfg2.URLs →
      cachePath env cfg1 = cachePath env cfg2) ∧
    (∀ (env : Env) (cfg1 cfg2 : URLIPRange), cfg1.CacheFile = [] →
      cfg2.CacheFile = [] →
      env.sha256hex (joinBar cfg1.URLs) ≠ env.sha256hex (joinBar cfg2.URLs) →
      cachePath env cfg1 ≠ cachePath env cfg2) := by
  refine ⟨?_, ?_, ?_⟩
  · intro env cfg h
    simp [cachePath, h]
  · intro env cfg1 cfg2 h1 h2 hu
    simp [cachePath, h1, h2, hu]
  · intro env cfg1 cfg2 h1 h2 hh heq
    simp only [cachePath, h1, h2, ne_eq, not_true_eq_false, if_false,
      ite_not] at heq
    have hname := pathJoin_inj _ _ _ heq
    have hmid := List.append_cancel_right hname
    have hhash := List.append_cancel_left hmid
    exact hh hhash

/-- Witness for C6: an override is returned as is; two configurations
sharing the URL list but differing elsewhere share the derived path; and
single-URL lists "a" versus "b" hash apart and resolve to different
paths. -/
theorem cache_path_resolution_witness :
    cachePath envStatus500 { zeroURLIPRange with CacheFile := ("/tmp/x").toList } =
      ("/tmp/x").toList ∧
    cachePath envStatus500 cfgTwo = cachePath envStatus500 { cfgTwo with Interval := 5 } ∧
    cachePath envStatus500 { zeroURLIPRange with URLs := [("a").toList] } ≠
      cachePath envStatus500 { zeroURLIPRange with URLs := [("b").toList] } := by
  refine ⟨?_, ?_, ?_⟩
  · exact cache_path_resolution.1 envStatus500 _ (by decide)
  · exact cache_path_resolution.2.1 envStatus500 _ _ rfl rfl rfl
  · exact cache_path_resolution.2.2 envStatus500 _ _ rfl rfl (by decide)

/-- C8: the line parser contract — cut the line at the first number sign,
trim, skip lines that clean to nothing, fail with the conversion error
carrying the cleaned line otherwise — and the concrete scenario: the
stream "10.0.0.0/8 # note", blank, "172.16.0.0/12" parses to exactly those
two ranges in order. -/
theorem line_parser_contract :
    parseLinesGo (toLines (("10.0.0.0/8 # note\n\n172.16.0.0/12\n").toList)) =
      .ok [⟨167772160, 8⟩, ⟨2886729728, 12⟩] ∧
    (∀ line rest, cleanLine line = [] →
      parseLinesGo (line :: rest) = parseLinesGo rest) ∧
    (∀ line rest, cleanLine line ≠ [] → cidrToPfx (cleanLine line) = none →
      parseLinesGo (line :: rest) = .error (.parse (cleanLine line))) ∧
    (∀ line rest p, cleanLine line ≠ [] → cidrToPfx (cleanLine line) = some p →
      parseLinesGo (line :: rest) = (parseLinesGo rest).map (fun ps => p :: ps)) := by
  refine ⟨rfl, ?_, ?_, ?_⟩
  · intro line rest h
    simp [parseLinesGo, h]
  · intro line rest h hp
    simp [parseLinesGo, h, hp]
  · intro line rest p h hp
    simp [parseLinesGo, h, hp]

/-- Witness for C8: a comment-only line is skipped without error and a
following malformed line fails with the conversion error carrying it. -/
theorem line_parser_contract_witness :
    parseLinesGo [(" # only a note").toList, ("bad").toList] =
      .error (.parse (("bad").toList)) := by
  have h1 := line_parser_contract.2.1 ((" # only a note").toList)
    [("bad").toList] (by decide)
  have h2 := line_parser_contract.2.2.1 (("bad").toList) [] (by decide) (by decide)
  rw [h1]
  exact h2

/-- C9 counterexample: an empty directive block unmarshals successfully to
the zero configuration, whose URL list is empty, and provisioning that
configuration also succeeds, publishing an empty range set — matching the
repository's own TestDefault, which provisions the empty block and expects
no error. -/
theorem empty_urls_counterexample :
    unmarshalCaddyfile [] zeroURLIPRange = .ok zeroURLIPRange ∧
    zeroURLIPRange.URLs = [] ∧
    (Provision zeroURLIPRange envStatus500 fsAbsent).map ModSt.ranges = .ok [] := by
  exact ⟨rfl, rfl, rfl⟩

/-- C9 (amended): a configuration with an empty source URL list is
accepted: unmarshalling performs no minimum-count check (the empty block
succeeds) and provisioning succeeds, publishing the empty range set, since
the aggregation over no URLs trivially succeeds. -/
theorem empty_urls_accepted (cfg : URLIPRange) (env : Env) (fs : FS)
    (h : cfg.URLs = []) :
    Provision cfg env fs =
      .ok { ranges := [], fs := (saveToCache env cfg fs []).1 } ∧
    unmarshalCaddyfile [] zeroURLIPRange = .ok zeroURLIPRange := by
  constructor
  · unfold Provision getPrefixes
    rw [h]
    rfl
  · rfl

/-- Witness for C9: the zero configuration has no URLs and provisions
successfully. -/
theorem empty_urls_accepted_witness :
    Provision zeroURLIPRange envStatus500 fsAbsent =
      .ok { ranges := [],
            fs := (saveToCache envStatus500 zeroURLIPRange fsAbsent []).1 } ∧
    unmarshalCaddyfile [] zeroURLIPRange = .ok zeroURLIPRange :=
  empty_urls_accepted zeroURLIPRange envStatus500 fsAbsent rfl

lemma parseCacheEntries_ok (ps : List Str) (h : ∀ s ∈ ps, (cidrToPfx s).isSome) :
    ∃ out, parseCacheEntries ps = .ok out := by
  induction ps with
  | nil => exact ⟨[], rfl⟩
  | cons s rest ih =>
    obtain ⟨p, hp⟩ := Option.isSome_iff_exists.mp (h s (List.mem_cons_self s rest))
    obtain ⟨out, hout⟩ := ih (fun t ht => h t (List.mem_cons_of_mem s ht))
    exact ⟨p :: out, by simp [parseCacheEntries, Except.map, hp, hout]⟩

/-- C10: the cache load never inspects the stored timestamp: a record whose
range texts are all valid loads successfully whatever its age, and the load
result is identical for any two timestamps on the same texts. -/
theorem load_ignores_timestamp (cfg : URLIPRange) (env : Env) (fs : FS)
    (ps : List Str) (t t' : Int)
    (h : ∀ s ∈ ps, (cidrToPfx s).isSome) :
    (∃ out, loadFromCache env cfg
      (fsUpdate fs (cachePath env cfg)
        (.stored { prefixes := ps, updatedAt := t })) = .ok out) ∧
    loadFromCache env cfg
      (fsUpdate fs (cachePath env cfg)
        (.stored { prefixes := ps, updatedAt := t })) =
    loadFromCache env cfg
      (fsUpdate fs (cachePath env cfg)
        (.stored { prefixes := ps, updatedAt := t' })) := by
  constructor
  · obtain ⟨out, hout⟩ := parseCacheEntries_ok ps h
    exact ⟨out, by simp [loadFromCache, fsUpdate, hout]⟩
  · simp [loadFromCache, fsUpdate]

/-- Witness for C10: a one-entry record loads identically with timestamp
zero and with a far-future timestamp. -/
theorem load_ignores_timestamp_witness :
    (∃ out, loadFromCache envTwo cfgTwo
      (fsUpdate fsAbsent (cachePath envTwo cfgTwo)
        (.stored { prefixes := [("10.0.0.0/8").toList], updatedAt := 0 })) =
        .ok out) ∧
    loadFromCache envTwo cfgTwo
      (fsUpdate fsAbsent (cachePath envTwo cfgTwo)
        (.stored { prefixes := [("10.0.0.0/8").toList], updatedAt := 0 })) =
    loadFromCache envTwo cfgTwo
      (fsUpdate fsAbsent (cachePath envTwo cfgTwo)
        (.stored { prefixes := [("10.0.0.0/8").toList], updatedAt := 999999 })) :=
  load_ignores_timestamp cfgTwo envTwo fsAbsent [("10.0.0.0/8").toList] 0 999999
    (by decide)

end CaddyIpList
